import Mathlib

/-!
# Verification of the Store API catalog service

Shallow embedding of the product/category catalog service (`main.py`,
`schemas.py`): the projection of stored documents into the public
`ProductOut` / `CategoryOut` schemas, and the query builder of
`get_products` (filter construction, sort-key resolution, result cap),
together with `get_product` and `get_categories`.

Conventions of the embedding:
* Stored documents are schema-flexible; a document is a record of
  optional typed fields plus an `extra` association list for fields
  outside the public schema.  Numbers are modelled as `ℚ`.
* The document store handle `db` is `Option (List _)`: `none` models the
  unavailable store (`db is None` in the source), `some docs` the product
  (resp. category) collection in insertion order.
* The store's query execution (the `database` wrapper module is not part
  of the analysed sources) is modelled from the spec's collaborator
  contract: predicate filtering, a stable sort on the resolved key with
  BSON missing-first ascending order, then truncation to `limit`.
* MongoDB `$regex` with option `"i"` is modelled for the fragment of
  patterns made of literal characters and the `.` wildcard; a pattern
  using any other PCRE operator parses to `none` and is outside the
  model (no theorem below interprets such a pattern's match result).
* Parameter validation performed by the HTTP layer declarations
  (`Query(24, ge=1, le=100)`, `Query(None, ge=0)`) is part of
  `get_products`: it rejects before the store is consulted.
-/

/-! ## Characters: case folding and hex digits -/

/-- Case folding used for case-insensitive matching: ASCII `A`-`Z` and
the Cyrillic block `А`-`Я` (plus `Ё`) fold to lower case; every other
character is left unchanged. -/
def foldChar (c : Char) : Char :=
  if 65 ≤ c.toNat ∧ c.toNat ≤ 90 then Char.ofNat (c.toNat + 32)
  else if 1040 ≤ c.toNat ∧ c.toNat ≤ 1071 then Char.ofNat (c.toNat + 32)
  else if c.toNat = 1025 then Char.ofNat 1105
  else c

/-- Hexadecimal digit (either case), as accepted by `bson.ObjectId`. -/
def isHexChar (c : Char) : Bool :=
  c.isDigit || (97 ≤ c.toNat && c.toNat ≤ 102) || (65 ≤ c.toNat && c.toNat ≤ 70)

/-- Lower-casing of an ASCII hex digit, used for the canonical string
form of an ObjectId. -/
def lowerHexChar (c : Char) : Char :=
  if 65 ≤ c.toNat ∧ c.toNat ≤ 70 then Char.ofNat (c.toNat + 32) else c

/-! ## A fragment of the MongoDB `$regex` semantics -/

/-- Regex token: a literal character or the `.` wildcard. -/
inductive RTok where
  | dot : RTok
  | lit : Char → RTok
deriving DecidableEq

/-- PCRE metacharacters.  A pattern containing one of these (other than
`.`, which the model supports) is outside the modelled fragment. -/
def metachar (c : Char) : Bool :=
  c == '.' || c == '^' || c == '$' || c == '*' || c == '+' || c == '?' ||
  c == '(' || c == ')' || c == '[' || c == ']' ||
  c == Char.ofNat 123 || c == Char.ofNat 125 || c == '|' || c == '\\'

/-- Parse a pattern string into regex tokens.  `.` becomes the wildcard;
any other metacharacter makes the pattern unsupported (`none`); every
remaining character is a literal. -/
def parseRegex : List Char → Option (List RTok)
  | [] => some []
  | c :: rest =>
    if c == '.' then (parseRegex rest).map (RTok.dot :: ·)
    else if metachar c then none
    else (parseRegex rest).map (RTok.lit c :: ·)

/-- Match the token list against a prefix of the subject, case
insensitively (PCRE option `i`). -/
def rmatchHere : List RTok → List Char → Bool
  | [], _ => true
  | _ :: _, [] => false
  | t :: ts, c :: cs =>
    (match t with
     | RTok.dot => true
     | RTok.lit l => foldChar l == foldChar c) && rmatchHere ts cs

/-- Unanchored search: the tokens match at some position of the subject. -/
def rsearch (ts : List RTok) : List Char → Bool
  | [] => rmatchHere ts []
  | c :: cs => rmatchHere ts (c :: cs) || rsearch ts cs

/-! ## Plain substring search (the spec's wording, for comparison) -/

/-- The pattern is a prefix of the subject (both already case-folded). -/
def subAt : List Char → List Char → Bool
  | [], _ => true
  | _ :: _, [] => false
  | a :: as, b :: bs => (a == b) && subAt as bs

/-- The pattern occurs contiguously somewhere in the subject. -/
def subSearch (p : List Char) : List Char → Bool
  | [] => subAt p []
  | c :: cs => subAt p (c :: cs) || subSearch p cs

/-- `q` occurs in `s` as a plain case-insensitive substring: no
character of `q` has any special meaning.  This follows the spec's words
and is compared against the code's `$regex` matching. -/
def ciContains (q s : String) : Bool :=
  subSearch (q.toList.map foldChar) (s.toList.map foldChar)

/-! ## Data model -/

/-- A stored product document: every public-schema field is optional
(schema-flexible store), `_id` is the store-assigned identifier in its
canonical lower-case-hex string form, and `extra` holds fields that are
not part of the public schema. -/
structure StoredDoc where
  _id : Option String := none
  title : Option String := none
  description : Option String := none
  price : Option ℚ := none
  category : Option String := none
  brand : Option String := none
  rating : Option ℚ := none
  reviews_count : Option Int := none
  images : Option (List String) := none
  colors : Option (List String) := none
  sizes : Option (List String) := none
  in_stock : Option Bool := none
  discount_percent : Option ℚ := none
  tags : Option (List String) := none
  extra : List (String × String) := []
deriving DecidableEq

/-- The public product schema (`ProductOut` in `main.py`).  Fields with
a `:=` default there are the only defaulted ones; `id`, `title`,
`price`, `category`, `rating` and `reviews_count` are required. -/
structure ProductOut where
  id : String
  title : String
  description : Option String
  price : ℚ
  category : String
  brand : Option String
  rating : ℚ
  reviews_count : Int
  images : List String
  colors : List String
  sizes : List String
  in_stock : Bool
  discount_percent : ℚ
  tags : List String
deriving DecidableEq

/-- A stored category document. -/
structure CatDoc where
  _id : Option String := none
  name : Option String := none
  slug : Option String := none
  icon : Option String := none
  extra : List (String × String) := []
deriving DecidableEq

/-- The public category schema (`CategoryOut` in `main.py`). -/
structure CategoryOut where
  id : String
  name : String
  slug : String
  icon : Option String
deriving DecidableEq

/-! ## Projection -/

/-- `ProductOut(**_to_id_str(doc))`: `_to_id_str` renames `_id` to `id`
(canonical string form); the pydantic constructor then requires `id`,
`title`, `price`, `category`, `rating`, `reviews_count`, fills each
absent defaulted field with its declared default, ignores fields not in
the model, and raises `ValidationError` (here: `none`) when a required
field is missing. -/
def ProductOut.ofDoc (d : StoredDoc) : Option ProductOut :=
  match d._id, d.title, d.price, d.category, d.rating, d.reviews_count with
  | some i, some t, some p, some c, some r, some rc =>
    some { id := i, title := t, description := d.description, price := p,
           category := c, brand := d.brand, rating := r, reviews_count := rc,
           images := d.images.getD [], colors := d.colors.getD [],
           sizes := d.sizes.getD [], in_stock := d.in_stock.getD true,
           discount_percent := d.discount_percent.getD 0,
           tags := d.tags.getD [] }
  | _, _, _, _, _, _ => none

/-- `CategoryOut(**_to_id_str(doc))`: `id`, `name` and `slug` are
required; `icon` defaults to `None`. -/
def CategoryOut.ofDoc (d : CatDoc) : Option CategoryOut :=
  match d._id, d.name, d.slug with
  | some i, some n, some s => some { id := i, name := n, slug := s, icon := d.icon }
  | _, _, _ => none

/-- The list comprehension `[ProductOut(**_to_id_str(d)) for d in cursor]`:
it builds the whole list, and the first projection failure raises out of
the comprehension (`none`). -/
def projectList : List StoredDoc → Option (List ProductOut)
  | [] => some []
  | d :: rest =>
    match ProductOut.ofDoc d, projectList rest with
    | some r, some rs => some (r :: rs)
    | _, _ => none

/-- The corresponding comprehension over category documents. -/
def projectCats : List CatDoc → Option (List CategoryOut)
  | [] => some []
  | d :: rest =>
    match CategoryOut.ofDoc d, projectCats rest with
    | some r, some rs => some (r :: rs)
    | _, _ => none

/-! ## Filter construction and evaluation -/

/-- Python truthiness of an optional string parameter (`if q:`):
`None` and the empty string are falsy. -/
def strTruthy : Option String → Bool
  | none => false
  | some s => !(s == "")

/-- The filter document `flt` built by `get_products`: an optional
`$or` of case-insensitive `$regex` conditions on
`title`/`description`/`tags` (from `q`), an optional exact `category`
equality, and optional `$gte`/`$lte` bounds on `price`. -/
structure MongoFilter where
  orRegex : Option String
  categoryEq : Option String
  priceGte : Option ℚ
  priceLte : Option ℚ
deriving DecidableEq

/-- Lines 201-216 of `main.py`: `q` and `category` are added only when
truthy; each price bound is added whenever the parameter is not `None`. -/
def buildFilter (q category : Option String) (min_price max_price : Option ℚ) :
    MongoFilter :=
  { orRegex := if strTruthy q then q else none,
    categoryEq := if strTruthy category then category else none,
    priceGte := min_price,
    priceLte := max_price }

/-- `$regex` applied to an optional string field: a missing field never
matches. -/
def optStrMatches (ts : List RTok) : Option String → Bool
  | none => false
  | some s => rsearch ts s.toList

/-- The `$or` block built from `q`: the regex matches `title`, or
`description`, or some element of the `tags` array.  Patterns outside
the modelled regex fragment are given the arbitrary value `false`; no
theorem interprets them. -/
def qFieldMatch (pat : String) (d : StoredDoc) : Bool :=
  match parseRegex pat.toList with
  | none => false
  | some ts =>
    optStrMatches ts d.title || optStrMatches ts d.description ||
      (d.tags.getD []).any (fun t => rsearch ts t.toList)

/-- MongoDB evaluation of the filter document: the top-level entries are
combined conjunctively; an equality or comparison on a missing field
does not match. -/
def evalFilter (f : MongoFilter) (d : StoredDoc) : Bool :=
  (match f.orRegex with
   | none => true
   | some pat => qFieldMatch pat d) &&
  (match f.categoryEq with
   | none => true
   | some c => d.category == some c) &&
  (match f.priceGte with
   | none => true
   | some x => match d.price with
     | none => false
     | some p => decide (x ≤ p)) &&
  (match f.priceLte with
   | none => true
   | some y => match d.price with
     | none => false
     | some p => decide (p ≤ y))

/-! ## Sort resolution and execution -/

/-- The three sort keys the code can resolve. -/
inductive SKey where
  | price : SKey
  | rating : SKey
  | reviewsCount : SKey
deriving DecidableEq

/-- Lines 218-227 of `main.py`: first match wins, everything else —
including `new`, `popularity`, and the framework default used when the
parameter is absent — falls back to `reviews_count` descending. -/
def resolveSort (sort : Option String) : SKey × Int :=
  let s := sort.getD "popularity"
  if s == "price_asc" then (SKey.price, 1)
  else if s == "price_desc" then (SKey.price, -1)
  else if s == "rating" then (SKey.rating, -1)
  else (SKey.reviewsCount, -1)

/-- The sort key's value in a document (missing when the field is). -/
def keyOf : SKey → StoredDoc → Option ℚ
  | SKey.price, d => d.price
  | SKey.rating, d => d.rating
  | SKey.reviewsCount, d => d.reviews_count.map (fun n => (n : ℚ))

/-- BSON ascending comparison on an optional numeric key: a missing
value sorts before every number. -/
def oLe : Option ℚ → Option ℚ → Bool
  | none, _ => true
  | some _, none => false
  | some x, some y => decide (x ≤ y)

/-- Comparison used by the store's sort: ascending for direction `1`,
the exact reverse for `-1`. -/
def keyLeB (sk : SKey × Int) (a b : StoredDoc) : Bool :=
  if sk.2 = 1 then oLe (keyOf sk.1 a) (keyOf sk.1 b)
  else oLe (keyOf sk.1 b) (keyOf sk.1 a)

/-- The sort comparison as a relation. -/
def docRel (sk : SKey × Int) : StoredDoc → StoredDoc → Prop :=
  fun a b => keyLeB sk a b = true

instance (sk : SKey × Int) : DecidableRel (docRel sk) :=
  fun a b => inferInstanceAs (Decidable (keyLeB sk a b = true))

/-- Modelled from the spec: `cursor.sort(sort_key, sort_dir)` is
executed by the document store through the `database` wrapper module,
which is not among the analysed sources; the spec's collaborator
contract (§6, §8.2) describes it as a stable total order on the resolved
key, ties broken by original store order. -/
def sortDocs (sk : SKey × Int) (docs : List StoredDoc) : List StoredDoc :=
  List.insertionSort (docRel sk) docs

/-! ## The three operations -/

/-- Validation of one `Query(None, ge=0)` price parameter. -/
def validPriceParam : Option ℚ → Bool
  | none => true
  | some x => decide (0 ≤ x)

/-- The HTTP layer's parameter validation, performed before the handler
body runs: `limit` must lie in `[1, 100]` (`Query(24, ge=1, le=100)`),
and each supplied price bound must be non-negative (`Query(None, ge=0)`). -/
def validParams (min_price max_price : Option ℚ) (limit : Int) : Bool :=
  decide (1 ≤ limit) && decide (limit ≤ 100) &&
    validPriceParam min_price && validPriceParam max_price

/-- The error observable at the public boundary: a parameter validation
rejection (HTTP 422, issued before the handler runs), or an unhandled
exception escaping the handler (HTTP 500). -/
inductive ApiError where
  | validationError : ApiError
  | internalError : ApiError
deriving DecidableEq

/-- The document sequence produced by the cursor pipeline of
`get_products`: `find(flt)` (predicate), then `.sort` (stable sort on
the resolved key), then `.limit(limit)` (truncation). -/
def queryDocs (q category : Option String) (min_price max_price : Option ℚ)
    (sort : Option String) (limit : Int) (docs : List StoredDoc) : List StoredDoc :=
  (sortDocs (resolveSort sort)
    (docs.filter (evalFilter (buildFilter q category min_price max_price)))).take
    limit.toNat

/-- `GET /api/products`.  Parameter validation first (before any store
access); an unavailable store yields `[]`; otherwise the cursor pipeline
runs and the projection comprehension either yields every record or
raises out of the handler. -/
def get_products (db : Option (List StoredDoc)) (q category : Option String)
    (min_price max_price : Option ℚ) (sort : Option String) (limit : Int) :
    Except ApiError (List ProductOut) :=
  if validParams min_price max_price limit then
    match db with
    | none => Except.ok []
    | some docs =>
      match projectList (queryDocs q category min_price max_price sort limit docs) with
      | some items => Except.ok items
      | none => Except.error ApiError.internalError
  else Except.error ApiError.validationError

/-- `bson.ObjectId(product_id)`: accepts exactly the 24-character hex
strings (either case) and canonicalises to lower case; anything else
raises (here: `none`). -/
def parseObjectId (s : String) : Option String :=
  if s.length = 24 ∧ s.toList.all isHexChar then
    some (String.mk (s.toList.map lowerHexChar))
  else none

/-- `GET /api/products/{product_id}`.  The whole body is wrapped in
`try/except Exception: return None`, so a malformed identifier, a
missing document, and a failing projection all yield `None`. -/
def get_product (db : Option (List StoredDoc)) (product_id : String) :
    Option ProductOut :=
  match db with
  | none => none
  | some docs =>
    match parseObjectId product_id with
    | none => none
    | some oid =>
      match docs.find? (fun d => d._id == some oid) with
      | none => none
      | some doc => ProductOut.ofDoc doc

/-- `GET /api/categories`: every stored category document in insertion
order, each projected; an unavailable store yields `[]`; a projection
failure raises out of the handler. -/
def get_categories (db : Option (List CatDoc)) : Except ApiError (List CategoryOut) :=
  match db with
  | none => Except.ok []
  | some items =>
    match projectCats items with
    | some cats => Except.ok cats
    | none => Except.error ApiError.internalError

/-- The spec's matching predicate for `q`, in the spec's own words:
`title`, `description`, or some element of `tags` contains `q` as a
case-insensitive plain substring. -/
def specQMatch (q : String) (d : StoredDoc) : Bool :=
  (match d.title with
   | none => false
   | some t => ciContains q t) ||
  (match d.description with
   | none => false
   | some t => ciContains q t) ||
  (d.tags.getD []).any (fun t => ciContains q t)

/-! ## Concrete documents used in witnesses and counterexamples -/

/-- A fully valid stored product document; the `extra` field carries a
stored field outside the public schema. -/
def sampleDoc : StoredDoc :=
  { _id := some "507f1f77bcf86cd799439011", title := some "Sample",
    price := some 10, category := some "Одежда", rating := some 4,
    reviews_count := some 5, extra := [("internal_flag", "x")] }

/-- The projection of `sampleDoc`. -/
def sampleRec : ProductOut :=
  { id := "507f1f77bcf86cd799439011", title := "Sample", description := none,
    price := 10, category := "Одежда", brand := none, rating := 4,
    reviews_count := 5, images := [], colors := [], sizes := [],
    in_stock := true, discount_percent := 0, tags := [] }

/-- A stored document lacking the required `title`: its projection
fails. -/
def docNoTitle : StoredDoc :=
  { _id := some "507f1f77bcf86cd799439012", price := some 20,
    category := some "Одежда", rating := some 4, reviews_count := some 3 }

/-- A stored document lacking `rating` (all other required fields
present). -/
def docNoRating : StoredDoc :=
  { _id := some "507f1f77bcf86cd799439021", title := some "T",
    price := some 10, category := some "Одежда", reviews_count := some 1 }

/-- A stored document lacking `reviews_count` (all other required
fields present). -/
def docNoReviews : StoredDoc :=
  { _id := some "507f1f77bcf86cd799439022", title := some "T",
    price := some 10, category := some "Одежда", rating := some 4 }

/-- A document in category `"Обувь"` with price 5999. -/
def shoeDoc : StoredDoc :=
  { _id := some "507f1f77bcf86cd799439031", title := some "Кроссовки AirFlex X",
    price := some 5999, category := some "Обувь", rating := some 4.7,
    reviews_count := some 321 }

/-- A document whose title contains `"Наушники"`. -/
def phonesDoc : StoredDoc :=
  { _id := some "507f1f77bcf86cd799439041", title := some "Наушники Sonic Pro",
    price := some 7990, category := some "Электроника", rating := some 4.8,
    reviews_count := some 2134 }

/-! ## Lemmas: the modelled regex on metacharacter-free patterns is
plain case-insensitive substring search -/

/-- A pattern without metacharacters parses to a list of literals. -/
theorem parseRegex_plain :
    ∀ l : List Char, (∀ c ∈ l, metachar c = false) →
      parseRegex l = some (l.map RTok.lit) := by
  intro l h
  induction l with
  | nil => rfl
  | cons c rest ih =>
    have hc : metachar c = false := h c (List.mem_cons_self c rest)
    have hdot : (c == '.') = false := by
      cases hcd : c == '.'
      · rfl
      · rw [metachar, hcd] at hc
        simp at hc
    simp [parseRegex, hdot, hc, ih (fun a ha => h a (List.mem_cons_of_mem c ha))]

/-- Matching a list of literal tokens at the head is prefix comparison
of the case-folded strings. -/
theorem rmatchHere_lits :
    ∀ (l s : List Char),
      rmatchHere (l.map RTok.lit) s = subAt (l.map foldChar) (s.map foldChar) := by
  intro l
  induction l with
  | nil => intro s; rfl
  | cons a as ih =>
    intro s
    cases s with
    | nil => rfl
    | cons b bs => simp [rmatchHere, subAt, ih]

/-- Unanchored search with literal tokens is substring search on the
case-folded strings. -/
theorem rsearch_lits :
    ∀ (s l : List Char),
      rsearch (l.map RTok.lit) s = subSearch (l.map foldChar) (s.map foldChar) := by
  intro s
  induction s with
  | nil => intro l; simp [rsearch, subSearch, rmatchHere_lits]
  | cons c cs ih => intro l; simp [rsearch, subSearch, rmatchHere_lits, ih]

/-- On a metacharacter-free pattern the code's `$or` regex block agrees
with the spec's plain case-insensitive substring predicate. -/
theorem qFieldMatch_plain (q : String)
    (hq : ∀ c ∈ q.toList, metachar c = false) (d : StoredDoc) :
    qFieldMatch q d = specQMatch q d := by
  unfold qFieldMatch specQMatch optStrMatches ciContains
  rw [parseRegex_plain _ hq]
  cases d.title <;> cases d.description <;> simp [rsearch_lits, ciContains]

/-! ## Lemmas: projection -/

/-- A successful projection pins the required fields of the document. -/
theorem ProductOut.ofDoc_fields {d : StoredDoc} {r : ProductOut}
    (h : ProductOut.ofDoc d = some r) :
    d.price = some r.price ∧ d.rating = some r.rating ∧
      d.reviews_count = some r.reviews_count := by
  unfold ProductOut.ofDoc at h
  cases hi : d._id <;> cases ht : d.title <;> cases hp : d.price <;>
    cases hc : d.category <;> cases hr : d.rating <;> cases hrc : d.reviews_count <;>
    rw [hi, ht, hp, hc, hr, hrc] at h <;> cases h <;> exact ⟨rfl, rfl, rfl⟩

/-- The projection never reads the fields outside the public schema. -/
theorem ProductOut.ofDoc_extra (d : StoredDoc) (e : List (String × String)) :
    ProductOut.ofDoc { d with extra := e } = ProductOut.ofDoc d := rfl

/-- The projection comprehension preserves length when it succeeds. -/
theorem projectList_length :
    ∀ {ds : List StoredDoc} {items : List ProductOut},
      projectList ds = some items → items.length = ds.length := by
  intro ds
  induction ds with
  | nil =>
    intro items h
    cases h
    rfl
  | cons d rest ih =>
    intro items h
    unfold projectList at h
    cases ho : ProductOut.ofDoc d <;> rw [ho] at h
    · cases h
    · cases hrest : projectList rest <;> rw [hrest] at h
      · cases h
      · cases h
        simp [List.length_cons, ih hrest]

/-- The comprehension fails exactly when some document fails projection. -/
theorem projectList_eq_none_iff :
    ∀ ds : List StoredDoc,
      projectList ds = none ↔ ∃ d ∈ ds, ProductOut.ofDoc d = none := by
  intro ds
  induction ds with
  | nil => simp [projectList]
  | cons d rest ih =>
    unfold projectList
    cases ho : ProductOut.ofDoc d <;> cases hrest : projectList rest <;>
      simp only [ho, hrest]
    · exact iff_of_true trivial ⟨d, List.mem_cons_self d rest, ho⟩
    · exact iff_of_true trivial ⟨d, List.mem_cons_self d rest, ho⟩
    · refine iff_of_true trivial ?_
      obtain ⟨d', hd', h'⟩ := ih.mp hrest
      exact ⟨d', List.mem_cons_of_mem d hd', h'⟩
    · constructor
      · intro h
        cases h
      · rintro ⟨d', hd', h'⟩
        rcases List.mem_cons.mp hd' with rfl | hd'
        · rw [ho] at h'
          cases h'
        · have hn : projectList rest = none := ih.mpr ⟨d', hd', h'⟩
          rw [hrest] at hn
          cases hn

/-- If every document projects, the comprehension succeeds. -/
theorem projectList_some_of_all {ds : List StoredDoc}
    (h : ∀ d ∈ ds, (ProductOut.ofDoc d).isSome = true) :
    ∃ items, projectList ds = some items := by
  cases hp : projectList ds with
  | some items => exact ⟨items, rfl⟩
  | none =>
    obtain ⟨d, hd, hnone⟩ := (projectList_eq_none_iff ds).mp hp
    have := h d hd
    rw [hnone] at this
    cases this

/-- Every projected record comes from a document of the input list. -/
theorem projectList_mem :
    ∀ {ds : List StoredDoc} {items : List ProductOut} {b : ProductOut},
      projectList ds = some items → b ∈ items →
        ∃ d ∈ ds, ProductOut.ofDoc d = some b := by
  intro ds
  induction ds with
  | nil =>
    intro items b h hb
    cases h
    cases hb
  | cons d rest ih =>
    intro items b h hb
    unfold projectList at h
    cases ho : ProductOut.ofDoc d <;> rw [ho] at h
    · cases h
    · cases hrest : projectList rest <;> rw [hrest] at h
      · cases h
      · cases h
        rcases List.mem_cons.mp hb with hb | hb
        · exact ⟨d, List.mem_cons_self d rest, by rw [ho, hb]⟩
        · obtain ⟨d', hd', ho'⟩ := ih hrest hb
          exact ⟨d', List.mem_cons_of_mem d hd', ho'⟩

/-- A pairwise relation on documents transfers through the projection
comprehension to the projected records. -/
theorem projectList_pairwise {R : StoredDoc → StoredDoc → Prop}
    {S : ProductOut → ProductOut → Prop} :
    ∀ {ds : List StoredDoc} {items : List ProductOut},
      projectList ds = some items → ds.Pairwise R →
      (∀ d r d' r', ProductOut.ofDoc d = some r → ProductOut.ofDoc d' = some r' →
        R d d' → S r r') →
      items.Pairwise S := by
  intro ds
  induction ds with
  | nil =>
    intro items h _ _
    cases h
    exact List.Pairwise.nil
  | cons d rest ih =>
    intro items h hR htr
    unfold projectList at h
    cases ho : ProductOut.ofDoc d <;> rw [ho] at h
    · cases h
    · cases hrest : projectList rest <;> rw [hrest] at h
      · cases h
      · cases h
        rcases List.pairwise_cons.mp hR with ⟨hhead, htail⟩
        refine List.pairwise_cons.mpr ⟨?_, ih hrest htail htr⟩
        intro b hb
        obtain ⟨d', hd', ho'⟩ := projectList_mem hrest hb
        exact htr d _ d' b ho ho' (hhead d' hd')

/-! ## Lemmas: the store's sort -/

/-- The ascending optional-key comparison is reflexive. -/
theorem oLe_refl (a : Option ℚ) : oLe a a = true := by
  cases a <;> simp [oLe]

/-- The ascending optional-key comparison is total. -/
theorem oLe_total (a b : Option ℚ) : oLe a b = true ∨ oLe b a = true := by
  cases a <;> cases b <;> simp [oLe] <;> exact le_total _ _

/-- The ascending optional-key comparison is transitive. -/
theorem oLe_trans {a b c : Option ℚ} (h1 : oLe a b = true) (h2 : oLe b c = true) :
    oLe a c = true := by
  cases a <;> cases b <;> cases c <;> simp [oLe] at h1 h2 ⊢ <;> exact le_trans h1 h2

/-- Documents with equal sort keys compare `≤` in both directions. -/
theorem keyLeB_of_eq_key {sk : SKey × Int} {a b : StoredDoc}
    (h : keyOf sk.1 a = keyOf sk.1 b) : keyLeB sk a b = true := by
  unfold keyLeB
  rw [h]
  split <;> exact oLe_refl _

instance (sk : SKey × Int) : IsTotal StoredDoc (docRel sk) :=
  ⟨fun a b => by
    unfold docRel keyLeB
    by_cases h : sk.2 = 1
    · rw [if_pos h, if_pos h]
      exact oLe_total _ _
    · rw [if_neg h, if_neg h]
      exact oLe_total _ _⟩

instance (sk : SKey × Int) : IsTrans StoredDoc (docRel sk) :=
  ⟨fun a b c hab hbc => by
    unfold docRel keyLeB at hab hbc ⊢
    by_cases h : sk.2 = 1
    · rw [if_pos h] at hab hbc ⊢
      exact oLe_trans hab hbc
    · rw [if_neg h] at hab hbc ⊢
      exact oLe_trans hbc hab⟩

/-- The store's sort is sorted with respect to its comparison. -/
theorem sortDocs_sorted (sk : SKey × Int) (l : List StoredDoc) :
    List.Sorted (docRel sk) (sortDocs sk l) :=
  List.sorted_insertionSort (docRel sk) l

section FilterStability

variable {α : Type} (r : α → α → Prop) [DecidableRel r] (p : α → Bool)

/-- Inserting an element that satisfies `p` and compares `≤` to every
`p`-element of the list puts it in front of the `p`-elements. -/
theorem filter_orderedInsert_of_pos (x : α) (l : List α) (hx : p x = true)
    (h : ∀ a ∈ l, p a = true → r x a) :
    (List.orderedInsert r x l).filter p = x :: l.filter p := by
  induction l with
  | nil => simp [List.orderedInsert, hx]
  | cons b bs ih =>
    unfold List.orderedInsert
    by_cases hrb : r x b
    · rw [if_pos hrb]
      simp [List.filter_cons, hx]
    · rw [if_neg hrb]
      have hpb : p b = false := by
        cases hpb : p b
        · rfl
        · exact absurd (h b (List.mem_cons_self b bs) hpb) hrb
      rw [List.filter_cons_of_neg (by simp [hpb]),
        List.filter_cons_of_neg (by simp [hpb])]
      exact ih (fun a ha hpa => h a (List.mem_cons_of_mem b ha) hpa)

/-- Inserting an element that fails `p` leaves the `p`-elements
unchanged. -/
theorem filter_orderedInsert_of_neg (x : α) (l : List α) (hx : p x = false) :
    (List.orderedInsert r x l).filter p = l.filter p := by
  induction l with
  | nil => simp [List.orderedInsert, hx]
  | cons b bs ih =>
    unfold List.orderedInsert
    by_cases hrb : r x b
    · rw [if_pos hrb]
      rw [List.filter_cons_of_neg (by simp [hx])]
    · rw [if_neg hrb]
      rw [List.filter_cons, List.filter_cons]
      cases hpb : p b <;> simp [ih]

/-- Stability of insertion sort: if all `p`-elements are mutually `≤`,
the sorted list keeps them in their original relative order. -/
theorem filter_insertionSort_of_ties (l : List α)
    (hp : ∀ a b, p a = true → p b = true → r a b) :
    (List.insertionSort r l).filter p = l.filter p := by
  induction l with
  | nil => rfl
  | cons x xs ih =>
    show (List.orderedInsert r x (List.insertionSort r xs)).filter p = _
    cases hx : p x
    · rw [filter_orderedInsert_of_neg r p x _ hx, ih,
        List.filter_cons_of_neg (by simp [hx])]
    · rw [filter_orderedInsert_of_pos r p x _ hx
        (fun a _ hpa => hp x a hx hpa), ih,
        List.filter_cons_of_pos (by simp [hx])]

end FilterStability

/-- Stability of the store's sort: documents with any fixed sort-key
value keep their original relative order. -/
theorem filter_sortDocs (sk : SKey × Int) (v : Option ℚ) (docs : List StoredDoc) :
    (sortDocs sk docs).filter (fun d => keyOf sk.1 d == v) =
      docs.filter (fun d => keyOf sk.1 d == v) := by
  apply filter_insertionSort_of_ties
  intro a b ha hb
  have ha' : keyOf sk.1 a = v := by simpa using ha
  have hb' : keyOf sk.1 b = v := by simpa using hb
  exact keyLeB_of_eq_key (ha'.trans hb'.symm)

/-! ## Lemmas: the listing pipeline -/

/-- Unfolding of the parameter validation. -/
theorem validParams_iff {mn mx : Option ℚ} {lim : Int} :
    validParams mn mx lim = true ↔
      1 ≤ lim ∧ lim ≤ 100 ∧ validPriceParam mn = true ∧ validPriceParam mx = true := by
  simp [validParams, and_assoc]

/-- Inversion of a successful listing over an available store. -/
theorem get_products_ok_inv {docs : List StoredDoc} {q c : Option String}
    {mn mx : Option ℚ} {s : Option String} {lim : Int} {items : List ProductOut}
    (h : get_products (some docs) q c mn mx s lim = Except.ok items) :
    validParams mn mx lim = true ∧
      projectList (queryDocs q c mn mx s lim docs) = some items := by
  unfold get_products at h
  by_cases hv : validParams mn mx lim = true
  · rw [if_pos hv] at h
    dsimp only at h
    cases hp : projectList (queryDocs q c mn mx s lim docs) <;> rw [hp] at h
    · cases h
    · cases h
      exact ⟨hv, rfl⟩
  · rw [if_neg hv] at h
    cases h

/-- The comparison of the ascending-price sort transfers to projected
records. -/
theorem docRel_price_asc {d d' : StoredDoc} {r r' : ProductOut}
    (h : ProductOut.ofDoc d = some r) (h' : ProductOut.ofDoc d' = some r')
    (hR : docRel (SKey.price, 1) d d') : r.price ≤ r'.price := by
  have hp := (ProductOut.ofDoc_fields h).1
  have hp' := (ProductOut.ofDoc_fields h').1
  unfold docRel keyLeB at hR
  rw [if_pos rfl] at hR
  simp only [keyOf] at hR
  rw [hp, hp'] at hR
  simpa [oLe] using hR

/-- The comparison of the descending-price sort transfers to projected
records. -/
theorem docRel_price_desc {d d' : StoredDoc} {r r' : ProductOut}
    (h : ProductOut.ofDoc d = some r) (h' : ProductOut.ofDoc d' = some r')
    (hR : docRel (SKey.price, -1) d d') : r'.price ≤ r.price := by
  have hp := (ProductOut.ofDoc_fields h).1
  have hp' := (ProductOut.ofDoc_fields h').1
  unfold docRel keyLeB at hR
  rw [if_neg (by decide)] at hR
  simp only [keyOf] at hR
  rw [hp, hp'] at hR
  simpa [oLe] using hR

/-- The comparison of the descending-rating sort transfers to projected
records. -/
theorem docRel_rating_desc {d d' : StoredDoc} {r r' : ProductOut}
    (h : ProductOut.ofDoc d = some r) (h' : ProductOut.ofDoc d' = some r')
    (hR : docRel (SKey.rating, -1) d d') : r'.rating ≤ r.rating := by
  have hp := (ProductOut.ofDoc_fields h).2.1
  have hp' := (ProductOut.ofDoc_fields h').2.1
  unfold docRel keyLeB at hR
  rw [if_neg (by decide)] at hR
  simp only [keyOf] at hR
  rw [hp, hp'] at hR
  simpa [oLe] using hR

/-- The comparison of the descending-reviews sort transfers to projected
records. -/
theorem docRel_reviews_desc {d d' : StoredDoc} {r r' : ProductOut}
    (h : ProductOut.ofDoc d = some r) (h' : ProductOut.ofDoc d' = some r')
    (hR : docRel (SKey.reviewsCount, -1) d d') :
    r'.reviews_count ≤ r.reviews_count := by
  have hp := (ProductOut.ofDoc_fields h).2.2
  have hp' := (ProductOut.ofDoc_fields h').2.2
  unfold docRel keyLeB at hR
  rw [if_neg (by decide)] at hR
  simp only [keyOf] at hR
  rw [hp, hp'] at hR
  have : ((r'.reviews_count : ℚ)) ≤ ((r.reviews_count : ℚ)) := by
    simpa [oLe] using hR
  exact_mod_cast this

/-- The documents the pipeline returns are pairwise ordered by the
store's comparison. -/
theorem queryDocs_pairwise (q c : Option String) (mn mx : Option ℚ)
    (s : Option String) (lim : Int) (docs : List StoredDoc) :
    (queryDocs q c mn mx s lim docs).Pairwise (docRel (resolveSort s)) := by
  apply List.Pairwise.sublist (List.take_sublist _ _)
  exact sortDocs_sorted (resolveSort s) _

/-! ## Lemmas: filter decomposition -/

/-- A document missing `rating` or `reviews_count` fails projection:
`ProductOut` declares no default for either. -/
theorem ofDoc_required_none {d : StoredDoc}
    (h : d.rating = none ∨ d.reviews_count = none) :
    ProductOut.ofDoc d = none := by
  cases hi : d._id <;> cases ht : d.title <;> cases hp : d.price <;>
    cases hc : d.category <;> cases hr : d.rating <;> cases hrc : d.reviews_count <;>
    simp_all [ProductOut.ofDoc]

/-- The Mongo filter document is a conjunction of its entries. -/
theorem evalFilter_eq_and (f : MongoFilter) (d : StoredDoc) :
    evalFilter f d = true ↔
      ((∀ pat, f.orRegex = some pat → qFieldMatch pat d = true) ∧
       (∀ s, f.categoryEq = some s → d.category = some s) ∧
       (∀ x, f.priceGte = some x → ∃ p, d.price = some p ∧ x ≤ p) ∧
       (∀ y, f.priceLte = some y → ∃ p, d.price = some p ∧ p ≤ y)) := by
  rcases f with ⟨oR, cE, pG, pL⟩
  rcases oR with _ | pat <;> rcases cE with _ | s <;> rcases pG with _ | x <;>
    rcases pL with _ | y <;> cases hdp : d.price <;> simp [evalFilter, hdp, and_assoc]

/-- How a truthiness-guarded optional string parameter contributes to a
universally quantified condition. -/
theorem presentStr_iff (q : Option String) (P : String → Prop) :
    (∀ pat, (if strTruthy q then q else none) = some pat → P pat) ↔
      (∀ s, q = some s → s ≠ "" → P s) := by
  rcases q with _ | qs
  · simp [strTruthy]
  · by_cases h0 : qs = ""
    · subst h0
      simp [strTruthy]
    · simp [strTruthy, h0]

/-- An empty-string `q` builds the same filter as an absent `q`. -/
theorem buildFilter_empty_q (cat : Option String) (mn mx : Option ℚ) :
    buildFilter (some "") cat mn mx = buildFilter none cat mn mx := rfl

/-- An empty-string `category` builds the same filter as an absent
`category`. -/
theorem buildFilter_empty_cat (q : Option String) (mn mx : Option ℚ) :
    buildFilter q (some "") mn mx = buildFilter q none mn mx := rfl

/-! ## Claims -/

/-- C1, counterexample: a store whose top-`limit` matches contain one
document that fails projection (missing `title`) and one that projects
fine.  The claim predicts a response containing the remaining valid
record; the code's projection comprehension has no per-document error
handling, so the whole request fails instead. -/
theorem c1_counterexample :
    get_products (some [sampleDoc, docNoTitle]) none none none none none 24 =
        Except.error ApiError.internalError ∧
    ProductOut.ofDoc docNoTitle = none ∧
    (ProductOut.ofDoc sampleDoc).isSome = true :=
  ⟨rfl, rfl, rfl⟩

/-- C1, amended: a projection failure among the top-`limit` matches
aborts the whole `listProducts` request with a propagated error; only
when every selected document projects does the call succeed, and then it
returns every selected record (no skipping ever happens). -/
theorem c1_projection_failure_aborts :
    ∀ (docs : List StoredDoc) (q c : Option String) (mn mx : Option ℚ)
      (s : Option String) (lim : Int),
      validParams mn mx lim = true →
      ((∃ d ∈ queryDocs q c mn mx s lim docs, ProductOut.ofDoc d = none) →
        get_products (some docs) q c mn mx s lim =
          Except.error ApiError.internalError) ∧
      ((∀ d ∈ queryDocs q c mn mx s lim docs, (ProductOut.ofDoc d).isSome = true) →
        ∃ items, get_products (some docs) q c mn mx s lim = Except.ok items ∧
          items.length = (queryDocs q c mn mx s lim docs).length) := by
  intro docs q c mn mx s lim hv
  constructor
  · intro hex
    have hn : projectList (queryDocs q c mn mx s lim docs) = none :=
      (projectList_eq_none_iff _).mpr hex
    unfold get_products
    rw [if_pos hv]
    dsimp only
    rw [hn]
  · intro hall
    obtain ⟨items, hi⟩ := projectList_some_of_all hall
    refine ⟨items, ?_, projectList_length hi⟩
    unfold get_products
    rw [if_pos hv]
    dsimp only
    rw [hi]

/-- C1, witness for the amended claim at a concrete store. -/
theorem c1_witness :
    get_products (some [sampleDoc, docNoTitle]) none none none none none 24 =
      Except.error ApiError.internalError :=
  (c1_projection_failure_aborts [sampleDoc, docNoTitle] none none none none none 24
      (by decide)).1 ⟨docNoTitle, by decide, rfl⟩

/-- C2, counterexample: documents with every required field except
`rating` (resp. `reviews_count`) present.  The claim predicts projection
succeeds with the defaults `4.5` (resp. `0`); `ProductOut` declares no
default for either field, so projection fails. -/
theorem c2_counterexample :
    ProductOut.ofDoc docNoRating = none ∧ ProductOut.ofDoc docNoReviews = none :=
  ⟨rfl, rfl⟩

/-- C2, amended: projection fills each absent defaulted field with its
declared default — empty sequences for `images`/`colors`/`sizes`/`tags`,
`true` for `in_stock`, `0` for `discount_percent`, absent for
`description`/`brand` — and silently drops fields outside the public
schema; but `rating` and `reviews_count` carry no default in the
projection schema: a document missing either fails projection. -/
theorem c2_projection_defaults :
    (∀ (d : StoredDoc) (i t c : String) (p r : ℚ) (rc : Int),
      d._id = some i → d.title = some t → d.price = some p →
      d.category = some c → d.rating = some r → d.reviews_count = some rc →
      ProductOut.ofDoc d = some
        { id := i, title := t, description := d.description, price := p,
          category := c, brand := d.brand, rating := r, reviews_count := rc,
          images := d.images.getD [], colors := d.colors.getD [],
          sizes := d.sizes.getD [], in_stock := d.in_stock.getD true,
          discount_percent := d.discount_percent.getD 0,
          tags := d.tags.getD [] }) ∧
    (∀ (d : StoredDoc) (e : List (String × String)),
      ProductOut.ofDoc { d with extra := e } = ProductOut.ofDoc d) ∧
    (∀ d : StoredDoc, d.rating = none ∨ d.reviews_count = none →
      ProductOut.ofDoc d = none) := by
  refine ⟨?_, ?_, ?_⟩
  · intro d i t c p r rc h1 h2 h3 h4 h5 h6
    unfold ProductOut.ofDoc
    rw [h1, h2, h3, h4, h5, h6]
  · intro d e
    rfl
  · intro d h
    exact ofDoc_required_none h

/-- C2, witness: the defaults at a concrete document that also carries a
field outside the public schema. -/
theorem c2_witness :
    ProductOut.ofDoc sampleDoc = some
      { id := "507f1f77bcf86cd799439011", title := "Sample",
        description := sampleDoc.description, price := 10, category := "Одежда",
        brand := sampleDoc.brand, rating := 4, reviews_count := 5,
        images := sampleDoc.images.getD [], colors := sampleDoc.colors.getD [],
        sizes := sampleDoc.sizes.getD [], in_stock := sampleDoc.in_stock.getD true,
        discount_percent := sampleDoc.discount_percent.getD 0,
        tags := sampleDoc.tags.getD [] } :=
  c2_projection_defaults.1 sampleDoc _ _ _ _ _ _ rfl rfl rfl rfl rfl rfl

/-- C4: `price_asc`, `price_desc` and `rating` resolve to their declared
key and direction; every other value — `new`, `popularity`, an absent
parameter, or any unrecognized string — resolves to `reviews_count`
descending without failing, and therefore produces the identical listing
as `popularity`. -/
theorem c4_sort_resolution :
    resolveSort (some "price_asc") = (SKey.price, 1) ∧
    resolveSort (some "price_desc") = (SKey.price, -1) ∧
    resolveSort (some "rating") = (SKey.rating, -1) ∧
    resolveSort none = (SKey.reviewsCount, -1) ∧
    resolveSort (some "new") = (SKey.reviewsCount, -1) ∧
    resolveSort (some "popularity") = (SKey.reviewsCount, -1) ∧
    (∀ s : String, s ≠ "price_asc" → s ≠ "price_desc" → s ≠ "rating" →
      resolveSort (some s) = (SKey.reviewsCount, -1) ∧
      ∀ (db : Option (List StoredDoc)) (q c : Option String) (mn mx : Option ℚ)
        (lim : Int),
        get_products db q c mn mx (some s) lim =
          get_products db q c mn mx (some "popularity") lim) := by
  refine ⟨rfl, rfl, rfl, rfl, rfl, rfl, ?_⟩
  intro s h1 h2 h3
  have hr : resolveSort (some s) = (SKey.reviewsCount, -1) := by
    unfold resolveSort
    simp only [Option.getD_some]
    rw [if_neg (by simp [h1]), if_neg (by simp [h2]), if_neg (by simp [h3])]
  refine ⟨hr, ?_⟩
  intro db q c mn mx lim
  unfold get_products queryDocs
  rw [hr, show resolveSort (some "popularity") = (SKey.reviewsCount, -1) from rfl]

/-- C4, witness: `new` at a concrete store. -/
theorem c4_witness :
    resolveSort (some "new") = (SKey.reviewsCount, -1) ∧
    get_products (some [sampleDoc]) none none none none (some "new") 24 =
      get_products (some [sampleDoc]) none none none none (some "popularity") 24 := by
  have h := c4_sort_resolution.2.2.2.2.2.2 "new" (by decide) (by decide) (by decide)
  exact ⟨h.1, h.2 (some [sampleDoc]) none none none none 24⟩

/-- C7: `getProduct` is total with an `Option` result: a malformed
identifier yields absence (the parse error is swallowed), a well-formed
but unmatched identifier yields absence, and a found document yields
exactly the result of its projection — absence again when the projection
fails.  No error is ever propagated. -/
theorem c7_get_product_absence :
    ∀ (docs : List StoredDoc) (pid : String),
      (parseObjectId pid = none → get_product (some docs) pid = none) ∧
      (∀ oid, parseObjectId pid = some oid →
        docs.find? (fun d => d._id == some oid) = none →
        get_product (some docs) pid = none) ∧
      (∀ oid doc, parseObjectId pid = some oid →
        docs.find? (fun d => d._id == some oid) = some doc →
        get_product (some docs) pid = ProductOut.ofDoc doc) := by
  intro docs pid
  refine ⟨?_, ?_, ?_⟩
  · intro h
    unfold get_product
    dsimp only
    rw [h]
  · intro oid h hf
    unfold get_product
    dsimp only
    rw [h]
    dsimp only
    rw [hf]
  · intro oid doc h hf
    unfold get_product
    dsimp only
    rw [h]
    dsimp only
    rw [hf]

/-- C7, witness: a malformed identifier, a well-formed missing one, a
found document that projects, and a found document whose projection
fails, all at concrete stores. -/
theorem c7_witness :
    get_product (some [sampleDoc]) "not-an-objectid" = none ∧
    get_product (some [sampleDoc]) "00000000000000000000ffff" = none ∧
    get_product (some [sampleDoc]) "507F1F77BCF86CD799439011" =
      ProductOut.ofDoc sampleDoc ∧
    get_product (some [docNoTitle]) "507f1f77bcf86cd799439012" = none := by
  refine ⟨?_, ?_, ?_, ?_⟩
  · exact (c7_get_product_absence [sampleDoc] "not-an-objectid").1 rfl
  · exact (c7_get_product_absence [sampleDoc] "00000000000000000000ffff").2.1
      "00000000000000000000ffff" rfl rfl
  · exact (c7_get_product_absence [sampleDoc] "507F1F77BCF86CD799439011").2.2
      "507f1f77bcf86cd799439011" sampleDoc rfl rfl
  · have h := (c7_get_product_absence [docNoTitle] "507f1f77bcf86cd799439012").2.2
      "507f1f77bcf86cd799439012" docNoTitle rfl rfl
    rw [h]
    rfl

/-- C8: when the store collaborator is unreachable (`db is None`), both
listings return an empty sequence and the single lookup returns absence;
no fault reaches the caller of any of the three operations. -/
theorem c8_unavailable_store :
    ∀ (q c : Option String) (mn mx : Option ℚ) (s : Option String) (lim : Int)
      (pid : String),
      validParams mn mx lim = true →
      get_products none q c mn mx s lim = Except.ok [] ∧
      get_categories none = Except.ok [] ∧
      get_product none pid = none := by
  intro q c mn mx s lim pid hv
  refine ⟨?_, rfl, rfl⟩
  unfold get_products
  rw [if_pos hv]

/-- C8, witness at concrete parameters. -/
theorem c8_witness :
    get_products none none none none none none 24 = Except.ok [] ∧
    get_categories none = Except.ok [] ∧
    get_product none "507f1f77bcf86cd799439011" = none :=
  c8_unavailable_store none none none none none 24 "507f1f77bcf86cd799439011" (by decide)

/-- C3, counterexample: the search string is passed to the store as a
case-insensitive regular expression, so `.` in `q = "a.c"` matches any
character: the filter matches a document titled `"abc"` although no
field contains `"a.c"` as a plain substring. -/
theorem c3_counterexample :
    evalFilter (buildFilter (some "a.c") none none none)
        { title := some "abc" } = true ∧
    specQMatch "a.c" { title := some "abc" } = false :=
  ⟨rfl, rfl⟩

/-- C3, amended: for a non-empty `q` containing no regex metacharacter,
the filter matches exactly the documents where `title`, `description`,
or some element of `tags` contains `q` as a case-insensitive unanchored
plain substring; in general `q` is interpreted as a case-insensitive
regular expression, so its metacharacters keep their regex meaning. -/
theorem c3_plain_substring :
    ∀ (q : String) (cat : Option String) (mn mx : Option ℚ) (d : StoredDoc),
      q ≠ "" → (∀ ch ∈ q.toList, metachar ch = false) →
      qFieldMatch q d = specQMatch q d ∧
      evalFilter (buildFilter (some q) cat mn mx) d =
        (specQMatch q d && evalFilter (buildFilter none cat mn mx) d) := by
  intro q cat mn mx d hq hplain
  refine ⟨qFieldMatch_plain q hplain d, ?_⟩
  have ht : strTruthy (some q) = true := by simp [strTruthy, hq]
  unfold evalFilter buildFilter
  rw [ht]
  simp only [strTruthy, if_true, if_false, Bool.true_and]
  rw [qFieldMatch_plain q hplain d]
  simp [Bool.and_assoc]

/-- C3, witness: the Cyrillic example of the spec — `q = "наушники"`
matches a title containing `"Наушники"` case-insensitively. -/
theorem c3_witness :
    qFieldMatch "наушники" phonesDoc = specQMatch "наушники" phonesDoc ∧
    evalFilter (buildFilter (some "наушники") none none none) phonesDoc =
      (specQMatch "наушники" phonesDoc &&
        evalFilter (buildFilter none none none none) phonesDoc) :=
  c3_plain_substring "наушники" none none none phonesDoc (by decide) (by decide)

/-- C5: the filter is the conjunction of its active conditions —
`category` (when present and non-empty) is exact, case-sensitive
equality, `min_price`/`max_price` (whenever present) are inclusive
bounds on `price`; with no parameters every document matches; and the
spec's concrete combination over `"Обувь"` selects exactly the documents
with that category and `1000 ≤ price ≤ 10000`. -/
theorem c5_filter_conjunction :
    ∀ (q cat : Option String) (mn mx : Option ℚ) (d : StoredDoc),
      (evalFilter (buildFilter q cat mn mx) d = true ↔
        ((∀ s, q = some s → s ≠ "" → qFieldMatch s d = true) ∧
         (∀ s, cat = some s → s ≠ "" → d.category = some s) ∧
         (∀ x, mn = some x → ∃ p, d.price = some p ∧ x ≤ p) ∧
         (∀ y, mx = some y → ∃ p, d.price = some p ∧ p ≤ y))) ∧
      evalFilter (buildFilter none none none none) d = true ∧
      (evalFilter (buildFilter none (some "Обувь") (some 1000) (some 10000)) d = true ↔
        d.category = some "Обувь" ∧ ∃ p, d.price = some p ∧ 1000 ≤ p ∧ p ≤ 10000) := by
  intro q cat mn mx d
  refine ⟨?_, rfl, ?_⟩
  · rw [evalFilter_eq_and]
    exact and_congr (presentStr_iff q _)
      (and_congr (presentStr_iff cat _) (and_congr Iff.rfl Iff.rfl))
  · rw [evalFilter_eq_and]
    cases hdp : d.price <;>
      simp [buildFilter, strTruthy, hdp, and_assoc]

/-- C5, witness: the concrete shoe document satisfies the combined
filter. -/
theorem c5_witness :
    evalFilter (buildFilter none (some "Обувь") (some 1000) (some 10000)) shoeDoc =
      true :=
  ((c5_filter_conjunction none (some "Обувь") (some 1000) (some 10000) shoeDoc).2.2).mpr
    ⟨rfl, 5999, rfl, by norm_num, by norm_num⟩

/-- C10: a supplied empty-string `q` or `category` adds no condition —
the listing is identical to the one with the parameter absent — whereas
a supplied `min_price = 0` or `max_price = 0` does add its inclusive
price bound (which a document without a price, or outside the bound,
then fails). -/
theorem c10_param_presence :
    (∀ (db : Option (List StoredDoc)) (cat : Option String) (mn mx : Option ℚ)
      (s : Option String) (lim : Int),
      get_products db (some "") cat mn mx s lim =
        get_products db none cat mn mx s lim) ∧
    (∀ (db : Option (List StoredDoc)) (q : Option String) (mn mx : Option ℚ)
      (s : Option String) (lim : Int),
      get_products db q (some "") mn mx s lim =
        get_products db q none mn mx s lim) ∧
    (∀ (q cat : Option String) (mx : Option ℚ) (d : StoredDoc),
      evalFilter (buildFilter q cat (some 0) mx) d =
        (evalFilter (buildFilter q cat none mx) d &&
          match d.price with
          | none => false
          | some p => decide ((0 : ℚ) ≤ p))) ∧
    (∀ (q cat : Option String) (mn : Option ℚ) (d : StoredDoc),
      evalFilter (buildFilter q cat mn (some 0)) d =
        (evalFilter (buildFilter q cat mn none) d &&
          match d.price with
          | none => false
          | some p => decide (p ≤ (0 : ℚ)))) := by
  refine ⟨?_, ?_, ?_, ?_⟩
  · intro db cat mn mx s lim
    unfold get_products queryDocs
    rw [buildFilter_empty_q]
  · intro db q mn mx s lim
    unfold get_products queryDocs
    rw [buildFilter_empty_cat]
  · intro q cat mx d
    unfold evalFilter buildFilter
    cases hdp : d.price <;>
      simp [hdp, Bool.and_assoc, Bool.and_left_comm, Bool.and_comm]
  · intro q cat mn d
    unfold evalFilter buildFilter
    cases hdp : d.price <;>
      simp [hdp, Bool.and_assoc, Bool.and_left_comm, Bool.and_comm]

/-- C6: with well-formed price parameters, `listProducts` rejects with a
validation error — independently of the store, hence before any query —
exactly the `limit` values outside `[1, 100]`; for `limit` in range the
call is never a validation rejection, a successful response holds at
most `limit` records, and the truncation is applied to the fully sorted
filtered sequence (the pipeline's output is a prefix of it), never
before sorting. -/
theorem c6_limit_bounds :
    ∀ (db : Option (List StoredDoc)) (q c : Option String) (mn mx : Option ℚ)
      (s : Option String) (lim : Int),
      validPriceParam mn = true → validPriceParam mx = true →
      ((¬ (1 ≤ lim ∧ lim ≤ 100)) →
        get_products db q c mn mx s lim = Except.error ApiError.validationError) ∧
      (1 ≤ lim → lim ≤ 100 →
        get_products db q c mn mx s lim ≠ Except.error ApiError.validationError ∧
        (∀ items, get_products db q c mn mx s lim = Except.ok items →
          (items.length : Int) ≤ lim) ∧
        (∀ docs, db = some docs →
          ∃ rest,
            sortDocs (resolveSort s)
                (docs.filter (evalFilter (buildFilter q c mn mx))) =
              queryDocs q c mn mx s lim docs ++ rest)) := by
  intro db q c mn mx s lim hmn hmx
  constructor
  · intro hlim
    have hv : validParams mn mx lim = false := by
      cases hvv : validParams mn mx lim
      · rfl
      · exact absurd ⟨(validParams_iff.mp hvv).1, (validParams_iff.mp hvv).2.1⟩ hlim
    unfold get_products
    rw [if_neg (by simp [hv])]
  · intro h1 h2
    have hv : validParams mn mx lim = true := validParams_iff.mpr ⟨h1, h2, hmn, hmx⟩
    refine ⟨?_, ?_, ?_⟩
    · unfold get_products
      rw [if_pos hv]
      cases db with
      | none =>
        dsimp only
        intro hcontra
        cases hcontra
      | some docs =>
        dsimp only
        cases hp : projectList (queryDocs q c mn mx s lim docs) <;>
          intro hcontra <;> cases hcontra
    · intro items hok
      cases db with
      | none =>
        have : items = [] := by
          unfold get_products at hok
          rw [if_pos hv] at hok
          dsimp only at hok
          cases hok
          rfl
        subst this
        simpa using le_trans zero_le_one h1
      | some docs =>
        obtain ⟨-, hp⟩ := get_products_ok_inv hok
        have hlen := projectList_length hp
        have hqd : (queryDocs q c mn mx s lim docs).length ≤ lim.toNat := by
          unfold queryDocs
          rw [List.length_take]
          exact min_le_left _ _
        have hlen2 : items.length ≤ lim.toNat := hlen ▸ hqd
        have hnn : (lim.toNat : Int) = lim :=
          Int.toNat_of_nonneg (le_trans zero_le_one h1)
        calc (items.length : Int) ≤ (lim.toNat : Int) := by exact_mod_cast hlen2
          _ = lim := hnn
    · intro docs hdb
      refine ⟨(sortDocs (resolveSort s)
          (docs.filter (evalFilter (buildFilter q c mn mx)))).drop lim.toNat, ?_⟩
      unfold queryDocs
      exact (List.take_append_drop _ _).symm

/-- C6, witness: `limit = 200` is rejected, `limit = 24` is not. -/
theorem c6_witness :
    get_products (some [sampleDoc]) none none none none none 200 =
        Except.error ApiError.validationError ∧
    get_products (some [sampleDoc]) none none none none none 24 ≠
        Except.error ApiError.validationError := by
  have hA := (c6_limit_bounds (some [sampleDoc]) none none none none none 200
      rfl rfl).1 (by decide)
  have hB := ((c6_limit_bounds (some [sampleDoc]) none none none none none 24
      rfl rfl).2 (by decide) (by decide)).1
  exact ⟨hA, hB⟩

/-- C9: a successful listing is pairwise ordered on the resolved key —
non-decreasing in price for `price_asc`, non-increasing in price for
`price_desc`, non-increasing in rating for `rating`, non-increasing in
reviews count for everything else — and the sort is stable: for any
value of the sort key, the selected documents with that key appear as an
initial run of the key-equal documents in original store order. -/
theorem c9_sorted_and_stable :
    ∀ (q c : Option String) (mn mx : Option ℚ) (s : Option String) (lim : Int)
      (docs : List StoredDoc) (items : List ProductOut),
      get_products (some docs) q c mn mx s lim = Except.ok items →
      ((resolveSort s = (SKey.price, 1) →
          items.Pairwise (fun a b => a.price ≤ b.price)) ∧
       (resolveSort s = (SKey.price, -1) →
          items.Pairwise (fun a b => b.price ≤ a.price)) ∧
       (resolveSort s = (SKey.rating, -1) →
          items.Pairwise (fun a b => b.rating ≤ a.rating)) ∧
       (resolveSort s = (SKey.reviewsCount, -1) →
          items.Pairwise (fun a b => b.reviews_count ≤ a.reviews_count)) ∧
       (∀ v : Option ℚ,
          ∃ rest,
            (docs.filter (evalFilter (buildFilter q c mn mx))).filter
                (fun d => keyOf (resolveSort s).1 d == v) =
              (queryDocs q c mn mx s lim docs).filter
                  (fun d => keyOf (resolveSort s).1 d == v) ++ rest)) := by
  intro q c mn mx s lim docs items hok
  obtain ⟨-, hp⟩ := get_products_ok_inv hok
  have hpw := queryDocs_pairwise q c mn mx s lim docs
  refine ⟨?_, ?_, ?_, ?_, ?_⟩
  · intro hs
    rw [hs] at hpw
    exact projectList_pairwise hp hpw
      (fun d r d' r' h h' hR => docRel_price_asc h h' hR)
  · intro hs
    rw [hs] at hpw
    exact projectList_pairwise hp hpw
      (fun d r d' r' h h' hR => docRel_price_desc h h' hR)
  · intro hs
    rw [hs] at hpw
    exact projectList_pairwise hp hpw
      (fun d r d' r' h h' hR => docRel_rating_desc h h' hR)
  · intro hs
    rw [hs] at hpw
    exact projectList_pairwise hp hpw
      (fun d r d' r' h h' hR => docRel_reviews_desc h h' hR)
  · intro v
    refine ⟨((sortDocs (resolveSort s)
        (docs.filter (evalFilter (buildFilter q c mn mx)))).drop
          lim.toNat).filter (fun d => keyOf (resolveSort s).1 d == v), ?_⟩
    rw [← filter_sortDocs (resolveSort s) v
      (docs.filter (evalFilter (buildFilter q c mn mx)))]
    unfold queryDocs
    rw [← List.filter_append, List.take_append_drop]

/-- C9, witness: a concrete ascending-price listing. -/
theorem c9_witness :
    (resolveSort (some "price_asc") = (SKey.price, 1) →
      List.Pairwise (fun a b => a.price ≤ b.price) [sampleRec]) ∧
    (resolveSort (some "price_asc") = (SKey.price, -1) →
      List.Pairwise (fun a b => b.price ≤ a.price) [sampleRec]) ∧
    (resolveSort (some "price_asc") = (SKey.rating, -1) →
      List.Pairwise (fun a b => b.rating ≤ a.rating) [sampleRec]) ∧
    (resolveSort (some "price_asc") = (SKey.reviewsCount, -1) →
      List.Pairwise (fun a b => b.reviews_count ≤ a.reviews_count) [sampleRec]) ∧
    (∀ v : Option ℚ,
      ∃ rest,
        ([sampleDoc].filter (evalFilter (buildFilter none none none none))).filter
            (fun d => keyOf (resolveSort (some "price_asc")).1 d == v) =
          (queryDocs none none none none (some "price_asc") 24 [sampleDoc]).filter
              (fun d => keyOf (resolveSort (some "price_asc")).1 d == v) ++ rest) :=
  c9_sorted_and_stable none none none none (some "price_asc") 24 [sampleDoc]
    [sampleRec] rfl
